import Mathlib

/-!
# Verification of the streaming temperature-monitor client (`monitor.py`)

A shallow embedding of the core of `monitor.py`:
* the text-level helpers the source relies on (`str.splitlines`, `str.strip`,
  `str.endswith("\n\n")`, `str.startswith("data:")`) modelled over `List Char`;
* the payload mapper (`json.loads` + field access + `float(...)`, with the
  surrounding `try/except` modelled as `Option`);
* the SSE frame-decoding loop shared by `ApiClient.stream` and
  `ApiClient.stream_forever`;
* the bounded session `ApiClient.stream` (`stop_after` / `timeout`);
* the reconnect supervisor `ApiClient.stream_forever` (stop event, back-off,
  per-connection buffer);
* `TemperatureMonitor.check_safety` and the demo callback `handle_event`.

Python byte strings are modelled at the decoded-character level (`List Char`);
Python floats are modelled as `ℚ` (the claims under study only involve exact
decimal values and order comparisons).
-/

namespace Monitor

/-! ## Python text helpers

`str.splitlines` splits on the Python line-boundary set (not just `'\n'`),
treating `"\r\n"` as a single boundary, and drops a trailing empty line.
`str.strip()` removes characters for which `str.isspace` holds from both ends.
-/

/-- The line-boundary characters recognised by Python's `str.splitlines`. -/
def lineBreakChars : List Char :=
  ['\n', '\r', Char.ofNat 0x0B, Char.ofNat 0x0C, Char.ofNat 0x1C,
   Char.ofNat 0x1D, Char.ofNat 0x1E, Char.ofNat 0x85,
   Char.ofNat 0x2028, Char.ofNat 0x2029]

/-- Whether `c` is a Python line boundary. -/
def isLineBreak (c : Char) : Bool := lineBreakChars.contains c

/-- Characters stripped by Python's `str.strip()` (the `str.isspace` set:
ASCII whitespace, the C1/Unicode breaks, and the Unicode space separators). -/
def pySpaceChars : List Char :=
  [' ', '\t', '\n', '\r', Char.ofNat 0x0B, Char.ofNat 0x0C,
   Char.ofNat 0x1C, Char.ofNat 0x1D, Char.ofNat 0x1E, Char.ofNat 0x1F,
   Char.ofNat 0x85, Char.ofNat 0xA0, Char.ofNat 0x1680,
   Char.ofNat 0x2000, Char.ofNat 0x2001, Char.ofNat 0x2002, Char.ofNat 0x2003,
   Char.ofNat 0x2004, Char.ofNat 0x2005, Char.ofNat 0x2006, Char.ofNat 0x2007,
   Char.ofNat 0x2008, Char.ofNat 0x2009, Char.ofNat 0x200A,
   Char.ofNat 0x2028, Char.ofNat 0x2029, Char.ofNat 0x202F,
   Char.ofNat 0x205F, Char.ofNat 0x3000]

/-- Whether `c` is Python whitespace (`str.isspace`). -/
def pyIsSpace (c : Char) : Bool := pySpaceChars.contains c

/-- Worker for `pySplitlines`; `acc` holds the current line, reversed.
A `"\r\n"` pair is consumed as a single line boundary. -/
def splitGo : List Char → List Char → List (List Char)
  | [], acc => if acc.isEmpty then [] else [acc.reverse]
  | [c], acc =>
    if isLineBreak c then [acc.reverse]
    else [(c :: acc).reverse]
  | c :: c2 :: cs, acc =>
    if c = '\r' then
      if c2 = '\n' then acc.reverse :: splitGo cs []
      else acc.reverse :: splitGo (c2 :: cs) []
    else if isLineBreak c then acc.reverse :: splitGo (c2 :: cs) []
    else splitGo (c2 :: cs) (c :: acc)

/-- Python's `str.splitlines()` (with `keepends=False`). -/
def pySplitlines (l : List Char) : List (List Char) := splitGo l []

/-- Python's `str.strip()`: drop whitespace from both ends. -/
def pyStrip (l : List Char) : List Char :=
  ((l.dropWhile pyIsSpace).reverse.dropWhile pyIsSpace).reverse

/-- `buffer.endswith("\n\n")`: the buffer's last two characters are newlines. -/
def endsWithNLNL (l : List Char) : Bool :=
  l.reverse.take 2 = ['\n', '\n']

/-- The SSE payload marker `"data:"` checked by `ln.startswith("data:")`. -/
def dataMarker : List Char := ['d', 'a', 't', 'a', ':']

/-! ## JSON (`json.loads`) and the payload mapper

The mapper in the source is
`obj = json.loads(payload); r = TemperatureReading(float(obj["temperature"]), obj["timestamp"])`
wrapped in `try/except`.  We model JSON documents, a recursive-descent parser
(fuel-indexed, with fuel large enough for any input), the Python `dict`
lookup (last duplicate key wins), and Python's `float(...)` coercion
(numbers, bools, and numeric strings succeed; everything else raises). -/

/-- JSON values as produced by `json.loads`.  Numbers are modelled as `ℚ`. -/
inductive Json where
  | null : Json
  | bool (b : Bool) : Json
  | num (q : ℚ) : Json
  | str (s : List Char) : Json
  | arr (elems : List Json) : Json
  | obj (members : List (List Char × Json)) : Json

/-- JSON structural whitespace. -/
def jsonWs (c : Char) : Bool := c = ' ' ∨ c = '\t' ∨ c = '\n' ∨ c = '\r'

/-- Skip JSON whitespace. -/
def skipWs (s : List Char) : List Char := s.dropWhile jsonWs

/-- Hex digit value, if any. -/
def hexVal (c : Char) : Option Nat :=
  if '0' ≤ c ∧ c ≤ '9' then some (c.toNat - '0'.toNat)
  else if 'a' ≤ c ∧ c ≤ 'f' then some (c.toNat - 'a'.toNat + 10)
  else if 'A' ≤ c ∧ c ≤ 'F' then some (c.toNat - 'A'.toNat + 10)
  else none

/-- Parse the body of a JSON string after the opening quote; returns the
decoded characters and the remaining input after the closing quote. -/
def parseStrBody : List Char → Option (List Char × List Char)
  | [] => none
  | '"' :: r => some ([], r)
  | '\\' :: 'u' :: h1 :: h2 :: h3 :: h4 :: r => do
    let a ← hexVal h1
    let b ← hexVal h2
    let c ← hexVal h3
    let d ← hexVal h4
    let (s, rest) ← parseStrBody r
    pure (Char.ofNat (((a * 16 + b) * 16 + c) * 16 + d) :: s, rest)
  | '\\' :: e :: r => do
    let c ← match e with
      | '"' => some '"'
      | '\\' => some '\\'
      | '/' => some '/'
      | 'b' => some (Char.ofNat 0x08)
      | 'f' => some (Char.ofNat 0x0C)
      | 'n' => some '\n'
      | 'r' => some '\r'
      | 't' => some '\t'
      | _ => none
    let (s, rest) ← parseStrBody r
    pure (c :: s, rest)
  | c :: r =>
    if c.toNat < 0x20 then none   -- raw control characters are rejected (strict mode)
    else do
      let (s, rest) ← parseStrBody r
      pure (c :: s, rest)

/-- Decimal digit test. -/
def isDigitCh (c : Char) : Bool := '0' ≤ c ∧ c ≤ '9'

/-- Numeric value of a digit string. -/
def natOfDigits (ds : List Char) : Nat :=
  ds.foldl (fun n c => n * 10 + (c.toNat - '0'.toNat)) 0

/-- Parse a JSON number (grammar `-? int frac? exp?`, no leading zeros). -/
def parseNum (s : List Char) : Option (ℚ × List Char) :=
  let (sgn, s1) : ℚ × List Char :=
    match s with
    | '-' :: r => (-1, r)
    | _ => (1, s)
  let ds := s1.takeWhile isDigitCh
  let s2 := s1.dropWhile isDigitCh
  if ds.isEmpty then none
  else if ds.head? = some '0' ∧ ds.length > 1 then none
  else
    let intPart : ℚ := (natOfDigits ds : ℚ)
    let (withFrac, s3) : Option ℚ × List Char :=
      match s2 with
      | '.' :: r =>
        let fs := r.takeWhile isDigitCh
        if fs.isEmpty then (none, s2)
        else (some (intPart + (natOfDigits fs : ℚ) / ((10 : ℚ) ^ fs.length)),
              r.dropWhile isDigitCh)
      | _ => (some intPart, s2)
    match withFrac with
    | none => none
    | some mag =>
      match s3 with
      | 'e' :: r | 'E' :: r =>
        let (esgn, r1) : Bool × List Char :=
          match r with
          | '+' :: r' => (true, r')
          | '-' :: r' => (false, r')
          | _ => (true, r)
        let es := r1.takeWhile isDigitCh
        if es.isEmpty then none
        else
          let e := natOfDigits es
          some (sgn * mag * (if esgn then (10 : ℚ) ^ e else ((10 : ℚ) ^ e)⁻¹),
                r1.dropWhile isDigitCh)
      | _ => some (sgn * mag, s3)

/-- The three mutually recursive parsing modes (value / object members /
array elements), packaged as one structural recursion on the fuel so that the
parser is kernel-reducible.  Component 1 parses one JSON value; component 2
parses the nonempty member list of an object including the closing brace;
component 3 parses the nonempty element list of an array including the
closing bracket. -/
def parsers : Nat →
    (List Char → Option (Json × List Char)) ×
    (List Char → Option (List (List Char × Json) × List Char)) ×
    (List Char → Option (List Json × List Char))
  | 0 => (fun _ => none, fun _ => none, fun _ => none)
  | fuel + 1 =>
    let pv := (parsers fuel).1
    let pm := (parsers fuel).2.1
    let pe := (parsers fuel).2.2
    (fun s =>
      match skipWs s with
      | '{' :: r =>
        (match skipWs r with
         | '}' :: r2 => some (Json.obj [], r2)
         | r2 => do
           let (kvs, rest) ← pm r2
           pure (Json.obj kvs, rest))
      | '[' :: r =>
        (match skipWs r with
         | ']' :: r2 => some (Json.arr [], r2)
         | r2 => do
           let (xs, rest) ← pe r2
           pure (Json.arr xs, rest))
      | '"' :: r => do
        let (cs, rest) ← parseStrBody r
        pure (Json.str cs, rest)
      | 't' :: 'r' :: 'u' :: 'e' :: r => some (Json.bool true, r)
      | 'f' :: 'a' :: 'l' :: 's' :: 'e' :: r => some (Json.bool false, r)
      | 'n' :: 'u' :: 'l' :: 'l' :: r => some (Json.null, r)
      | r => do
        let (q, rest) ← parseNum r
        pure (Json.num q, rest),
     fun s =>
      match skipWs s with
      | '"' :: r => do
        let (k, r2) ← parseStrBody r
        match skipWs r2 with
        | ':' :: r3 => do
          let (v, r4) ← pv r3
          match skipWs r4 with
          | ',' :: r5 => do
            let (kvs, r6) ← pm r5
            pure ((k, v) :: kvs, r6)
          | '}' :: r5 => some ([(k, v)], r5)
          | _ => none
        | _ => none
      | _ => none,
     fun s => do
      let (v, r) ← pv s
      match skipWs r with
      | ',' :: r2 => do
        let (xs, r3) ← pe r2
        pure (v :: xs, r3)
      | ']' :: r2 => some ([v], r2)
      | _ => none)

/-- Parse one JSON value; `fuel` bounds the nesting recursion. -/
def parseValue (fuel : Nat) (s : List Char) : Option (Json × List Char) :=
  (parsers fuel).1 s

/-- `json.loads`: parse a complete document, allowing trailing whitespace only. -/
def jsonLoads (s : List Char) : Option Json :=
  match parseValue (s.length + 1) s with
  | some (v, rest) => if (skipWs rest).isEmpty then some v else none
  | none => none

/-- Python `dict` lookup on the member list built by `json.loads`:
the *last* occurrence of a duplicated key wins. -/
def dictLookup (kvs : List (List Char × Json)) (k : List Char) : Option Json :=
  (kvs.reverse.find? (fun kv => kv.1 = k)).map (·.2)

/-- Python `float(str)` on the numeric literal forms
(`[+-]? (digits [. digits?] | . digits) ([eE][+-]?digits)?` with surrounding
whitespace).  `inf`/`nan` literals are outside the model. -/
def pyFloatOfString (s : List Char) : Option ℚ :=
  let s1 := (s.dropWhile pyIsSpace).reverse.dropWhile pyIsSpace |>.reverse
  let (sgn, s2) : ℚ × List Char :=
    match s1 with
    | '-' :: r => (-1, r)
    | '+' :: r => (1, r)
    | _ => (1, s1)
  let ds := s2.takeWhile isDigitCh
  let s3 := s2.dropWhile isDigitCh
  let (mag, s4) : Option ℚ × List Char :=
    match s3 with
    | '.' :: r =>
      let fs := r.takeWhile isDigitCh
      if ds.isEmpty ∧ fs.isEmpty then (none, s3)
      else (some ((natOfDigits ds : ℚ) + (natOfDigits fs : ℚ) / ((10 : ℚ) ^ fs.length)),
            r.dropWhile isDigitCh)
    | _ => if ds.isEmpty then (none, s3) else (some (natOfDigits ds : ℚ), s3)
  match mag with
  | none => none
  | some m =>
    match s4 with
    | 'e' :: r | 'E' :: r =>
      let (esgn, r1) : Bool × List Char :=
        match r with
        | '+' :: r' => (true, r')
        | '-' :: r' => (false, r')
        | _ => (true, r)
      let es := r1.takeWhile isDigitCh
      if es.isEmpty ∨ ¬(r1.dropWhile isDigitCh).isEmpty then none
      else some (sgn * m * (if esgn then (10 : ℚ) ^ natOfDigits es
                            else ((10 : ℚ) ^ natOfDigits es)⁻¹))
    | [] => some (sgn * m)
    | _ => none

/-- Python `float(x)` applied to a JSON value: numbers pass through, bools
coerce (`float(True) = 1.0`), numeric strings parse; `None`, lists, and dicts
raise `TypeError` (modelled as `none`). -/
def pyFloat : Json → Option ℚ
  | Json.num q => some q
  | Json.bool b => some (if b then 1 else 0)
  | Json.str s => pyFloatOfString s
  | _ => none

/-- A validated reading: `TemperatureReading(float(obj["temperature"]), obj["timestamp"])`.
The timestamp is stored as the raw JSON value, exactly as the Python dataclass
stores whatever object the payload carried. -/
structure TemperatureReading where
  temperature : ℚ
  timestamp : Json

/-- The Event Mapper: `json.loads` the payload, then build the reading.
Every failure path of the `try` block (`json.loads` error, non-dict result,
`KeyError` on either field, `float(...)` error) yields `none`. -/
def mapPayload (payload : List Char) : Option TemperatureReading :=
  match jsonLoads payload with
  | some (Json.obj kvs) =>
    match dictLookup kvs ['t','e','m','p','e','r','a','t','u','r','e'] with
    | none => none
    | some tv =>
      match pyFloat tv with
      | none => none
      | some t =>
        match dictLookup kvs ['t','i','m','e','s','t','a','m','p'] with
        | none => none
        | some ts => some ⟨t, ts⟩
  | some _ => none
  | none => none

/-! ## The frame-decoding loop

Both `ApiClient.stream` (lines 105–127) and `ApiClient.stream_forever`
(lines 144–166) run the same per-chunk loop:

```
buffer += ch
if buffer.endswith("\n\n"):
    lines = [ln for ln in buffer.splitlines() if ln.strip() != ""]
    for ln in lines:
        if ln.startswith("data:"):
            payload = ln[len("data:"):].strip()
            try: ... json.loads(payload) ... on_event(r) ...
            except Exception: pass
    buffer = ""
```

`decodeChunks` below is that loop at the payload level (the Frame Decoder);
`streamLoop` / `runChunks` further down embed the two full methods. -/

/-- The non-blank lines of a flushed buffer
(`[ln for ln in buffer.splitlines() if ln.strip() != ""]`). -/
def keptLines (buf : List Char) : List (List Char) :=
  (pySplitlines buf).filter (fun ln => !(pyStrip ln).isEmpty)

/-- The payload strings extracted from one flushed buffer: for each kept line
starting with `data:`, the marker is dropped and the rest stripped. -/
def dataLines (buf : List Char) : List (List Char) :=
  (keptLines buf).filterMap
    (fun ln => if dataMarker.isPrefixOf ln then some (pyStrip (ln.drop 5)) else none)

/-- Frame Decoder state: the mutable `buffer` plus the payloads yielded so far. -/
structure DecState where
  buffer : List Char
  payloads : List (List Char)

/-- One iteration of the frame-decoding loop on a received chunk:
skip empty chunks, append to the buffer, and on a trailing blank line flush
the buffer into payloads. -/
def decodeStep (st : DecState) (c : List Char) : DecState :=
  if c.isEmpty then st
  else
    let buf := st.buffer ++ c
    if endsWithNLNL buf then ⟨[], st.payloads ++ dataLines buf⟩
    else ⟨buf, st.payloads⟩

/-- The Frame Decoder run over a whole chunk sequence, from an empty buffer. -/
def decodeChunks (cs : List (List Char)) : List (List Char) :=
  (cs.foldl decodeStep ⟨[], []⟩).payloads

/-! ## Per-line processing with the Event Mapper and the callback

`lineStep` is the body of `for ln in lines:` including the inner `try/except`:
the callback is modelled as `cb : TemperatureReading → Bool`, `false` meaning
`on_event(r)` raised.  The state is `(event_count, invocations)`;
`invocations` records every call of the callback, in order.  A raising
callback still *received* the reading but aborts the `try` block before
`event_count += 1`. -/

/-- Process one line of a flushed buffer. -/
def lineStep (cb : TemperatureReading → Bool) (st : Nat × List TemperatureReading)
    (ln : List Char) : Nat × List TemperatureReading :=
  if dataMarker.isPrefixOf ln then
    match mapPayload (pyStrip (ln.drop 5)) with
    | some r => if cb r then (st.1 + 1, st.2 ++ [r]) else (st.1, st.2 ++ [r])
    | none => st
  else st

/-- Process a list of lines in order (the `for ln in lines:` loop). -/
def processLines (cb : TemperatureReading → Bool) (lns : List (List Char))
    (st : Nat × List TemperatureReading) : Nat × List TemperatureReading :=
  lns.foldl (lineStep cb) st

/-! ## `ApiClient.stream` (bounded session)

State of the loop body of `stream`: the event counter, the callback
invocations so far, and the decode buffer.  Each received chunk carries the
value of `time.time() - start` that the loop's timeout check would observe on
that iteration.  The two trailing `break` checks reproduce Python truthiness:
`stop_after` of `None` or `0` disables the count check, `timeout` of `None`
or `0.0` disables the deadline check. -/

structure StreamState where
  eventCount : Nat
  invocations : List TemperatureReading
  buffer : List Char

/-- `if stop_after and event_count >= stop_after: break`. -/
def stopAfterHit (sa : Option Nat) (n : Nat) : Bool :=
  match sa with
  | none => false
  | some s => ¬(s = 0) ∧ s ≤ n

/-- `if timeout and (time.time() - start) >= timeout: break`. -/
def timeoutHit (tm : Option ℚ) (elapsed : ℚ) : Bool :=
  match tm with
  | none => false
  | some t => ¬(t = 0) ∧ t ≤ elapsed

/-- The chunk-processing part of one iteration of `stream`'s loop
(append, flush on a trailing blank line, map and deliver each payload). -/
def streamStep (cb : TemperatureReading → Bool) (st : StreamState)
    (c : List Char) : StreamState :=
  let buf := st.buffer ++ c
  if endsWithNLNL buf then
    let (n, out) := processLines cb (keptLines buf) (st.eventCount, st.invocations)
    ⟨n, out, []⟩
  else ⟨st.eventCount, st.invocations, buf⟩

/-- The `for chunk in resp.iter_content(chunk_size=1):` loop of `stream`,
including the `if not chunk: continue` skip (which also skips the two
`break` checks) and the per-iteration bound checks. -/
def streamLoop (cb : TemperatureReading → Bool) (sa : Option Nat) (tm : Option ℚ) :
    List (List Char × ℚ) → StreamState → StreamState
  | [], st => st
  | (c, el) :: rest, st =>
    if c.isEmpty then streamLoop cb sa tm rest st
    else
      let st' := streamStep cb st c
      if stopAfterHit sa st'.eventCount then st'
      else if timeoutHit tm el then st'
      else streamLoop cb sa tm rest st'

/-- `ApiClient.stream` after a successful connection: the loop started on
`event_count = 0`, no invocations, and an empty buffer. -/
def stream (cb : TemperatureReading → Bool) (sa : Option Nat) (tm : Option ℚ)
    (chunks : List (List Char × ℚ)) : StreamState :=
  streamLoop cb sa tm chunks ⟨0, [], []⟩

/-! ## `ApiClient.stream_forever` (reconnect supervisor)

The environment of one physical connection attempt is scripted:

* `connectFail` — `requests.get(...)` itself raises a `RequestException`;
* `statusOk` — the endpoint's status; `resp.raise_for_status()` raises
  `requests.exceptions.HTTPError` (a subclass of `RequestException`) iff
  it is `false`;
* `chunks` — the decoded chunks `iter_content(chunk_size=1)` yields;
* `transportFail` — after those chunks, the iterator raises a transport-level
  `RequestException` (`true`) or is exhausted cleanly (`false`).

`stop_event` is set exactly once; it is modelled by the number of
`stop_event.is_set()` calls that return `False` before the flag is up:
with `stopN = some m`, the `k`-th check (0-based, counted globally across the
whole run) observes the flag iff `m ≤ k`; `stopN = none` means the flag is
never set.  The source consults the flag at three places: the `while` guard,
before processing each chunk, and in the `except` handler.  `time.sleep(1)`
is recorded as `sleptAfter` on the preceding attempt's summary. -/

/-- Script of one connection attempt (the world's behaviour). -/
structure Attempt where
  connectFail : Bool
  statusOk : Bool
  chunks : List (List Char)
  transportFail : Bool

/-- `stop_event.is_set()` at global check index `k`. -/
def isSet (stopN : Option Nat) (k : Nat) : Bool :=
  match stopN with
  | none => false
  | some m => m ≤ k

/-- Result of the inner `for chunk in resp.iter_content(...)` loop of
`stream_forever`: the updated global check counter, the final buffer, the
callback invocations, whether the loop ended on the stop check (`break`),
and how many chunks were consumed past their stop check. -/
structure ChunkResult where
  checks : Nat
  buffer : List Char
  invocations : List TemperatureReading
  stoppedFlag : Bool
  processed : Nat

/-- The chunk loop of `stream_forever` (lines 145–166): check the stop event,
then skip empty chunks, append, and flush on a trailing blank line.
`stream_forever` keeps no event count, so the counter of `lineStep` is
discarded; a raising callback is swallowed identically. -/
def runChunks (stopN : Option Nat) (cb : TemperatureReading → Bool) :
    List (List Char) → Nat → List Char → List TemperatureReading → Nat → ChunkResult
  | [], k, buf, out, pr => ⟨k, buf, out, false, pr⟩
  | c :: cs, k, buf, out, pr =>
    if isSet stopN k then ⟨k + 1, buf, out, true, pr⟩
    else if c.isEmpty then runChunks stopN cb cs (k + 1) buf out (pr + 1)
    else
      let buf' := buf ++ c
      if endsWithNLNL buf' then
        runChunks stopN cb cs (k + 1) [] (processLines cb (keptLines buf') (0, out)).2 (pr + 1)
      else runChunks stopN cb cs (k + 1) buf' out (pr + 1)

/-- How one attempt ended. -/
inductive AttemptEnd where
  | connectError : AttemptEnd    -- `requests.get` raised
  | statusError : AttemptEnd     -- `raise_for_status` raised `HTTPError`
  | stoppedMidStream : AttemptEnd  -- the per-chunk stop check broke the loop
  | transportError : AttemptEnd  -- `iter_content` raised mid-stream
  | cleanEnd : AttemptEnd        -- the iterator was exhausted without error

/-- Summary of one executed connection attempt. -/
structure AttemptSummary where
  ended : AttemptEnd
  invocations : List TemperatureReading
  processed : Nat
  sleptAfter : Bool

/-- Why the supervisor run ended: the stop event was observed, or the
scripted list of attempts ran out while the loop was still live. -/
inductive ExitKind where
  | stopped : ExitKind
  | outOfScript : ExitKind

/-- Result of a `stream_forever` run. -/
structure SuperResult where
  summaries : List AttemptSummary
  exit : ExitKind
  checks : Nat

/-- `ApiClient.stream_forever` (lines 140–172): the `while not
stop_event.is_set():` loop.  Every `RequestException` — a connect failure,
the `HTTPError` from `raise_for_status`, or a mid-stream transport error —
lands in the same `except` handler, which re-checks the stop event and
otherwise sleeps one second and retries.  A clean end of the iterator simply
re-enters the `while` guard with no sleep. -/
def supervisorRun (cb : TemperatureReading → Bool) (stopN : Option Nat) :
    List Attempt → Nat → SuperResult
  | [], k =>
    if isSet stopN k then ⟨[], ExitKind.stopped, k + 1⟩
    else ⟨[], ExitKind.outOfScript, k + 1⟩
  | a :: rest, k =>
    if isSet stopN k then ⟨[], ExitKind.stopped, k + 1⟩
    else if a.connectFail then
      if isSet stopN (k + 1) then
        ⟨[⟨AttemptEnd.connectError, [], 0, false⟩], ExitKind.stopped, k + 2⟩
      else
        let r := supervisorRun cb stopN rest (k + 2)
        ⟨⟨AttemptEnd.connectError, [], 0, true⟩ :: r.summaries, r.exit, r.checks⟩
    else if a.statusOk then
      let cr := runChunks stopN cb a.chunks (k + 1) [] [] 0
      if cr.stoppedFlag then
        let r := supervisorRun cb stopN rest cr.checks
        ⟨⟨AttemptEnd.stoppedMidStream, cr.invocations, cr.processed, false⟩ :: r.summaries,
         r.exit, r.checks⟩
      else if a.transportFail then
        if isSet stopN cr.checks then
          ⟨[⟨AttemptEnd.transportError, cr.invocations, cr.processed, false⟩],
           ExitKind.stopped, cr.checks + 1⟩
        else
          let r := supervisorRun cb stopN rest (cr.checks + 1)
          ⟨⟨AttemptEnd.transportError, cr.invocations, cr.processed, true⟩ :: r.summaries,
           r.exit, r.checks⟩
      else
        let r := supervisorRun cb stopN rest cr.checks
        ⟨⟨AttemptEnd.cleanEnd, cr.invocations, cr.processed, false⟩ :: r.summaries,
         r.exit, r.checks⟩
    else
      if isSet stopN (k + 1) then
        ⟨[⟨AttemptEnd.statusError, [], 0, false⟩], ExitKind.stopped, k + 2⟩
      else
        let r := supervisorRun cb stopN rest (k + 2)
        ⟨⟨AttemptEnd.statusError, [], 0, true⟩ :: r.summaries, r.exit, r.checks⟩

/-! ## `TemperatureMonitor` and the demo callback `handle_event` -/

/-- The reading store: safe interval bounds plus the accumulated readings. -/
structure TemperatureMonitor where
  safe_min : ℚ
  safe_max : ℚ
  readings : List TemperatureReading

/-- `TemperatureMonitor.add_reading`: append one reading. -/
def add_reading (m : TemperatureMonitor) (r : TemperatureReading) : TemperatureMonitor :=
  { m with readings := m.readings ++ [r] }

/-- `TemperatureMonitor.check_safety`: the readings strictly outside the safe
interval (`r.temperature < self.safe_min or r.temperature > self.safe_max`). -/
def check_safety (m : TemperatureMonitor) : List TemperatureReading :=
  m.readings.filter (fun r => r.temperature < m.safe_min ∨ r.temperature > m.safe_max)

/-- The classification printed by the demo callback `handle_event`
(its `if / elif / elif / else` chain on the temperature). -/
inductive EventClass where
  | belowMin : EventClass
  | aboveMax : EventClass
  | boundary : EventClass
  | normal : EventClass

/-- `handle_event`'s classification of a temperature. -/
def classify_event (m : TemperatureMonitor) (t : ℚ) : EventClass :=
  if t < m.safe_min then EventClass.belowMin
  else if t > m.safe_max then EventClass.aboveMax
  else if t = m.safe_min ∨ t = m.safe_max then EventClass.boundary
  else EventClass.normal

/-- The demo callback `handle_event`: classify (for the log line) and append
the reading, unmodified, to the monitor. -/
def handle_event (m : TemperatureMonitor) (r : TemperatureReading) :
    EventClass × TemperatureMonitor :=
  (classify_event m r.temperature, add_reading m r)

/-! ## Concrete callbacks and inputs used by witnesses and counterexamples -/

/-- A delivery callback that always returns normally. -/
def cbTrue : TemperatureReading → Bool := fun _ => true

/-- A delivery callback that always raises. -/
def cbFalse : TemperatureReading → Bool := fun _ => false

/-! ## Claim C9 — boundary temperatures -/

/-- C9: a reading whose temperature equals `safe_min` or `safe_max` exactly is
classified by `handle_event` as a boundary case (not below/above the range),
is passed to the store unmodified, and `check_safety` never reports it as an
out-of-range violation (the interval is assumed well-formed,
`safe_min ≤ safe_max`, as in the default 20–80 configuration). -/
theorem claim9_boundary_not_violation (m : TemperatureMonitor) (r : TemperatureReading)
    (hm : m.safe_min ≤ m.safe_max)
    (ht : r.temperature = m.safe_min ∨ r.temperature = m.safe_max) :
    (handle_event m r).1 = EventClass.boundary ∧
    (handle_event m r).2.readings = m.readings ++ [r] ∧
    check_safety (handle_event m r).2 = check_safety m := by
  have hnot : ¬(r.temperature < m.safe_min ∨ r.temperature > m.safe_max) := by
    rcases ht with h | h <;> rw [h] <;> rintro (h1 | h1)
    · exact lt_irrefl _ h1
    · exact not_lt.mpr hm h1
    · exact not_lt.mpr hm h1
    · exact lt_irrefl _ h1
  refine ⟨?_, rfl, ?_⟩
  · unfold handle_event classify_event
    rcases ht with h | h
    · rw [h, if_neg (lt_irrefl _), if_neg (not_lt.mpr hm), if_pos (Or.inl rfl)]
    · rw [h, if_neg (not_lt.mpr hm), if_neg (lt_irrefl _), if_pos (Or.inr rfl)]
  · unfold check_safety handle_event add_reading
    simp only
    rw [List.filter_append]
    have hdec : (decide (r.temperature < m.safe_min ∨ r.temperature > m.safe_max)) = false :=
      decide_eq_false hnot
    simp only [List.filter_cons, List.filter_nil, hdec, Bool.false_eq_true, if_false,
      List.append_nil]

/-- C9 witness: the default 20–80 °C configuration with a reading at exactly
20 °C. -/
theorem claim9_witness :
    ((20 : ℚ) ≤ 80 ∧ ((20 : ℚ) = 20 ∨ (20 : ℚ) = 80)) ∧
    ((handle_event ⟨20, 80, []⟩ ⟨20, Json.null⟩).1 = EventClass.boundary ∧
     (handle_event ⟨20, 80, []⟩ ⟨20, Json.null⟩).2.readings = [] ++ [⟨20, Json.null⟩] ∧
     check_safety (handle_event ⟨20, 80, []⟩ ⟨20, Json.null⟩).2 =
       check_safety ⟨20, 80, []⟩) :=
  ⟨⟨by norm_num, Or.inl rfl⟩,
   claim9_boundary_not_violation ⟨20, 80, []⟩ ⟨20, Json.null⟩ (by norm_num) (Or.inl rfl)⟩

/-! ## Claim C3 — malformed payloads are discarded silently -/

/-- C3: a `data:` line whose payload fails to map to a reading (invalid JSON,
missing `temperature` or `timestamp`, or a temperature `float(...)` cannot
convert) is discarded by the line-processing loop with no observable effect:
the callback is not invoked, the event count is unchanged, and the remaining
lines (and hence all later frames) are processed exactly as they would have
been.  The `try/except` swallowing is modelled by `mapPayload` being total
with value `none`: no exception can escape the mapping step. -/
theorem claim3_malformed_payload_discarded (cb : TemperatureReading → Bool)
    (ln : List Char) (rest : List (List Char)) (st : Nat × List TemperatureReading)
    (hpre : dataMarker.isPrefixOf ln = true)
    (hmap : mapPayload (pyStrip (ln.drop 5)) = none) :
    processLines cb (ln :: rest) st = processLines cb rest st := by
  unfold processLines
  rw [List.foldl_cons]
  have : lineStep cb st ln = st := by
    unfold lineStep
    rw [if_pos hpre, hmap]
  rw [this]

/-- C3 witness: the non-JSON payload `nope` on a `data:` line is dropped and
processing continues with the next line. -/
theorem claim3_witness :
    dataMarker.isPrefixOf ("data: nope".data) = true ∧
    mapPayload (pyStrip (("data: nope".data).drop 5)) = none ∧
    processLines cbTrue ["data: nope".data, "other".data] (0, []) =
      processLines cbTrue ["other".data] (0, []) :=
  ⟨rfl, rfl, claim3_malformed_payload_discarded cbTrue _ _ _ rfl rfl⟩

/-! ## Claim C10 — a raising delivery callback is swallowed -/

/-- C10: if the payload maps to a reading `r` but the caller's callback raises
on it (`cb r = false`), the same `except Exception: pass` that drops malformed
frames swallows the exception: the callback was invoked exactly once with `r`
(it is recorded in the invocation trace and never re-delivered), the bounded
mode's `event_count` is NOT incremented (the `+= 1` sits after `on_event` in
the `try` block), and the loop continues with the remaining lines and frames
from the same state. -/
theorem claim10_callback_exception_swallowed (cb : TemperatureReading → Bool)
    (ln : List Char) (rest : List (List Char)) (n : Nat)
    (out : List TemperatureReading) (r : TemperatureReading)
    (hpre : dataMarker.isPrefixOf ln = true)
    (hmap : mapPayload (pyStrip (ln.drop 5)) = some r)
    (hcb : cb r = false) :
    processLines cb (ln :: rest) (n, out) = processLines cb rest (n, out ++ [r]) := by
  unfold processLines
  rw [List.foldl_cons]
  have : lineStep cb (n, out) ln = (n, out ++ [r]) := by
    unfold lineStep
    rw [if_pos hpre, hmap]
    simp [hcb]
  rw [this]

/-- C10 witness: a well-formed payload whose delivery callback raises — the
reading is recorded once, the count stays at 0, processing continues. -/
theorem claim10_witness :
    dataMarker.isPrefixOf ("data: \x7b\"temperature\": 7, \"timestamp\": \"x\"\x7d".data) = true ∧
    mapPayload (pyStrip (("data: \x7b\"temperature\": 7, \"timestamp\": \"x\"\x7d".data).drop 5)) =
      some ⟨7, Json.str ['x']⟩ ∧
    cbFalse ⟨7, Json.str ['x']⟩ = false ∧
    processLines cbFalse ["data: \x7b\"temperature\": 7, \"timestamp\": \"x\"\x7d".data, "other".data] (0, []) =
      processLines cbFalse ["other".data] (0, [] ++ [⟨7, Json.str ['x']⟩]) :=
  ⟨rfl, by with_unfolding_all rfl, rfl,
   claim10_callback_exception_swallowed cbFalse _ _ 0 [] _ rfl (by with_unfolding_all rfl) rfl⟩

/-! ## Claim C8 — the two-event literal stream -/

/-- The literal two-event stream of the spec's example, delivered one
character at a time (`chunk_size=1`), with elapsed time 0 at every check. -/
def c8Input : List Char :=
  ("data: \x7b\"temperature\": 25.5, \"timestamp\": \"t1\"\x7d\n\n" ++
   "data: \x7b\"temperature\": 99.9, \"timestamp\": \"t2\"\x7d\n\n").data

/-- C8 chunk sequence: one character per chunk, as `iter_content(chunk_size=1)`
yields it. -/
def c8Chunks : List (List Char × ℚ) := c8Input.map (fun ch => ([ch], 0))

set_option maxRecDepth 100000 in
/-- C8: on the literal stream
`data: {"temperature": 25.5, "timestamp": "t1"}\n\n` followed by
`data: {"temperature": 99.9, "timestamp": "t2"}\n\n`, the session invokes the
delivery callback exactly twice, first with the reading `(25.5, "t1")`, then
with `(99.9, "t2")`. -/
theorem claim8_two_readings_in_order :
    (stream cbTrue none none c8Chunks).invocations =
      [⟨51 / 2, Json.str ['t', '1']⟩, ⟨999 / 10, Json.str ['t', '2']⟩] ∧
    (stream cbTrue none none c8Chunks).eventCount = 2 := by
  constructor <;> with_unfolding_all rfl

/-! ## Claim C7 — bounded mode (`stop_after` / `timeout`) -/

/-- A single frame carrying two payload lines (used against `stop_after=1`). -/
def c7Frame : List Char :=
  ("data: \x7b\"temperature\": 1, \"timestamp\": \"a\"\x7d\n" ++
   "data: \x7b\"temperature\": 2, \"timestamp\": \"b\"\x7d\n\n").data

/-- C7 counterexample: with `stop_after = 1`, a single frame containing two
`data:` lines makes the session deliver TWO readings — the claim's "no more
than N readings in total, including when a single frame contains multiple
data: payload lines" is false on the code, because the
`event_count >= stop_after` check runs only once per received chunk, after
the whole flushed buffer has been processed. -/
theorem claim7_counterexample :
    (stream cbTrue (some 1) none [(c7Frame, 0)]).invocations.length = 2 ∧
    ¬((stream cbTrue (some 1) none [(c7Frame, 0)]).invocations.length ≤ 1) := by
  have h : (stream cbTrue (some 1) none [(c7Frame, 0)]).invocations.length = 2 := by
    with_unfolding_all rfl
  exact ⟨h, by rw [h]; omega⟩

/-- C7 (amended): the bounded session stops at the FIRST per-chunk check at
which the delivered-event count has reached `stop_after` (Python-truthy) or
the elapsed time has reached `timeout`: the loop returns the state produced
by that chunk and touches no further chunk.  Deliveries can therefore exceed
`N` only by the extra payload lines of the final flushed buffer, which is
processed in full before the check. -/
theorem claim7_stops_at_first_check (cb : TemperatureReading → Bool)
    (sa : Option Nat) (tm : Option ℚ) (c : List Char) (el : ℚ)
    (rest : List (List Char × ℚ)) (st : StreamState)
    (hc : c.isEmpty = false)
    (hhit : stopAfterHit sa (streamStep cb st c).eventCount = true ∨
            timeoutHit tm el = true) :
    streamLoop cb sa tm ((c, el) :: rest) st = streamStep cb st c := by
  simp only [streamLoop]
  rw [if_neg (by simp [hc])]
  rcases hhit with h | h
  · rw [if_pos h]
  · by_cases h2 : stopAfterHit sa (streamStep cb st c).eventCount = true
    · rw [if_pos h2]
    · rw [if_neg h2, if_pos h]

/-- C7 witness: the two-payload frame with `stop_after = 1` hits the count
check right after its flush, and the loop stops there. -/
theorem claim7_witness :
    c7Frame.isEmpty = false ∧
    (stopAfterHit (some 1) (streamStep cbTrue ⟨0, [], []⟩ c7Frame).eventCount = true ∨
     timeoutHit none 0 = true) ∧
    streamLoop cbTrue (some 1) none [(c7Frame, 0)] ⟨0, [], []⟩ =
      streamStep cbTrue ⟨0, [], []⟩ c7Frame :=
  ⟨rfl, Or.inl (by with_unfolding_all rfl),
   claim7_stops_at_first_check cbTrue (some 1) none c7Frame 0 [] ⟨0, [], []⟩ rfl
     (Or.inl (by with_unfolding_all rfl))⟩

/-! ## Claim C1 — protocol errors in `stream_forever` -/

/-- An attempt whose connection succeeds but whose status is non-success. -/
def c1BadStatus : Attempt := ⟨false, false, [], false⟩

/-- An attempt that connects, returns a success status, and ends cleanly. -/
def c1Good : Attempt := ⟨false, true, [], false⟩

/-- C1 counterexample: a non-success HTTP status does NOT propagate out of
`stream_forever` as a terminal failure.  `raise_for_status()` raises
`HTTPError`, a subclass of `RequestException`, so the supervisor's
`except requests.exceptions.RequestException` catches it, sleeps the one-second
back-off (`sleptAfter = true` on the first summary), and starts a second
attempt — the run ends only because the script ran out, not at the protocol
error. -/
theorem claim1_counterexample :
    (supervisorRun cbTrue none [c1BadStatus, c1Good] 0).summaries =
      [⟨AttemptEnd.statusError, [], 0, true⟩, ⟨AttemptEnd.cleanEnd, [], 0, false⟩] ∧
    (supervisorRun cbTrue none [c1BadStatus, c1Good] 0).exit = ExitKind.outOfScript :=
  ⟨rfl, rfl⟩

/-- C1 (amended): a `ProtocolError` (non-success status) is treated by
`stream_forever` exactly like a transport error: with the stop event unset at
the `while` guard and at the handler's re-check, the supervisor records the
failed attempt, sleeps the fixed one-second back-off, and proceeds to the
next connection attempt; nothing propagates to the caller. -/
theorem claim1_protocol_error_retried (cb : TemperatureReading → Bool)
    (stopN : Option Nat) (a : Attempt) (rest : List Attempt) (k : Nat)
    (h1 : isSet stopN k = false) (h2 : a.connectFail = false)
    (h3 : a.statusOk = false) (h4 : isSet stopN (k + 1) = false) :
    supervisorRun cb stopN (a :: rest) k =
      ⟨⟨AttemptEnd.statusError, [], 0, true⟩ ::
         (supervisorRun cb stopN rest (k + 2)).summaries,
       (supervisorRun cb stopN rest (k + 2)).exit,
       (supervisorRun cb stopN rest (k + 2)).checks⟩ := by
  simp only [supervisorRun]
  rw [if_neg (by simp [h1]), if_neg (by simp [h2]), if_neg (by simp [h3]),
    if_neg (by simp [h4])]

/-- C1 witness: the amended behaviour at a concrete bad-status attempt with
the stop event never set. -/
theorem claim1_witness :
    isSet none 0 = false ∧ c1BadStatus.connectFail = false ∧
    c1BadStatus.statusOk = false ∧ isSet none 1 = false ∧
    supervisorRun cbTrue none [c1BadStatus] 0 =
      ⟨⟨AttemptEnd.statusError, [], 0, true⟩ ::
         (supervisorRun cbTrue none [] 2).summaries,
       (supervisorRun cbTrue none [] 2).exit,
       (supervisorRun cbTrue none [] 2).checks⟩ :=
  ⟨rfl, rfl, rfl, rfl,
   claim1_protocol_error_retried cbTrue none c1BadStatus [] 0 rfl rfl rfl rfl⟩

/-! ## Claim C4 — transport errors: one back-off, one retry; stop wins -/

/-- C4: when a successful connection's stream ends with a transport-level
error (and the chunk loop was not broken by the stop check), the supervisor
re-checks the stop event once: if it is still unset, it sleeps the fixed
one-second back-off and starts exactly one new attempt (the recursion on the
rest of the script); if it is set, the supervisor exits immediately
(`ExitKind.stopped`) with no further attempt and no sleep. -/
theorem claim4_transport_error_backoff (cb : TemperatureReading → Bool)
    (stopN : Option Nat) (a : Attempt) (rest : List Attempt) (k : Nat)
    (h1 : isSet stopN k = false) (h2 : a.connectFail = false)
    (h3 : a.statusOk = true) (h4 : a.transportFail = true)
    (h5 : (runChunks stopN cb a.chunks (k + 1) [] [] 0).stoppedFlag = false) :
    (isSet stopN (runChunks stopN cb a.chunks (k + 1) [] [] 0).checks = false →
      supervisorRun cb stopN (a :: rest) k =
        ⟨⟨AttemptEnd.transportError,
           (runChunks stopN cb a.chunks (k + 1) [] [] 0).invocations,
           (runChunks stopN cb a.chunks (k + 1) [] [] 0).processed, true⟩ ::
           (supervisorRun cb stopN rest
             ((runChunks stopN cb a.chunks (k + 1) [] [] 0).checks + 1)).summaries,
         (supervisorRun cb stopN rest
           ((runChunks stopN cb a.chunks (k + 1) [] [] 0).checks + 1)).exit,
         (supervisorRun cb stopN rest
           ((runChunks stopN cb a.chunks (k + 1) [] [] 0).checks + 1)).checks⟩) ∧
    (isSet stopN (runChunks stopN cb a.chunks (k + 1) [] [] 0).checks = true →
      supervisorRun cb stopN (a :: rest) k =
        ⟨[⟨AttemptEnd.transportError,
            (runChunks stopN cb a.chunks (k + 1) [] [] 0).invocations,
            (runChunks stopN cb a.chunks (k + 1) [] [] 0).processed, false⟩],
         ExitKind.stopped,
         (runChunks stopN cb a.chunks (k + 1) [] [] 0).checks + 1⟩) := by
  constructor <;> intro h6 <;>
    · simp only [supervisorRun]
      rw [if_neg (by simp [h1]), if_neg (by simp [h2]), if_pos h3,
        if_neg (by simp [h5]), if_pos h4]
      simp [h6]

/-- C4 witness: a transport-failing attempt with the stop event far away
(set only after five checks, never reached). -/
theorem claim4_witness :
    isSet (some 5) 0 = false ∧
    (⟨false, true, [], true⟩ : Attempt).connectFail = false ∧
    (⟨false, true, [], true⟩ : Attempt).statusOk = true ∧
    (⟨false, true, [], true⟩ : Attempt).transportFail = true ∧
    (runChunks (some 5) cbTrue [] 1 [] [] 0).stoppedFlag = false ∧
    ((isSet (some 5) (runChunks (some 5) cbTrue [] 1 [] [] 0).checks = false →
      supervisorRun cbTrue (some 5) [⟨false, true, [], true⟩] 0 =
        ⟨⟨AttemptEnd.transportError,
           (runChunks (some 5) cbTrue [] 1 [] [] 0).invocations,
           (runChunks (some 5) cbTrue [] 1 [] [] 0).processed, true⟩ ::
           (supervisorRun cbTrue (some 5) []
             ((runChunks (some 5) cbTrue [] 1 [] [] 0).checks + 1)).summaries,
         (supervisorRun cbTrue (some 5) []
           ((runChunks (some 5) cbTrue [] 1 [] [] 0).checks + 1)).exit,
         (supervisorRun cbTrue (some 5) []
           ((runChunks (some 5) cbTrue [] 1 [] [] 0).checks + 1)).checks⟩) ∧
     (isSet (some 5) (runChunks (some 5) cbTrue [] 1 [] [] 0).checks = true →
      supervisorRun cbTrue (some 5) [⟨false, true, [], true⟩] 0 =
        ⟨[⟨AttemptEnd.transportError,
            (runChunks (some 5) cbTrue [] 1 [] [] 0).invocations,
            (runChunks (some 5) cbTrue [] 1 [] [] 0).processed, false⟩],
         ExitKind.stopped,
         (runChunks (some 5) cbTrue [] 1 [] [] 0).checks + 1⟩)) :=
  ⟨rfl, rfl, rfl, rfl, rfl,
   claim4_transport_error_backoff cbTrue (some 5) ⟨false, true, [], true⟩ [] 0
     rfl rfl rfl rfl rfl⟩

/-! ## Claim C5 — a fresh decode buffer on every connection -/

/-- With the stop event never set, the chunk loop never breaks on the stop
check. -/
theorem runChunks_none_not_stopped (cb : TemperatureReading → Bool) :
    ∀ (cs : List (List Char)) (k : Nat) (buf : List Char)
      (out : List TemperatureReading) (pr : Nat),
      (runChunks none cb cs k buf out pr).stoppedFlag = false := by
  intro cs
  induction cs with
  | nil => intro k buf out pr; rfl
  | cons c cs ih =>
    intro k buf out pr
    simp only [runChunks, isSet, Bool.false_eq_true, if_false]
    split
    · exact ih _ _ _ _
    · split
      · exact ih _ _ _ _
      · exact ih _ _ _ _

/-- With the stop event never set, the invocation trace of the chunk loop
does not depend on the global check counter or processed counter. -/
theorem runChunks_none_inv_shift (cb : TemperatureReading → Bool) :
    ∀ (cs : List (List Char)) (k k' : Nat) (buf : List Char)
      (out : List TemperatureReading) (pr pr' : Nat),
      (runChunks none cb cs k buf out pr).invocations =
        (runChunks none cb cs k' buf out pr').invocations := by
  intro cs
  induction cs with
  | nil => intro k k' buf out pr pr'; rfl
  | cons c cs ih =>
    intro k k' buf out pr pr'
    simp only [runChunks, isSet, Bool.false_eq_true, if_false]
    split
    · exact ih _ _ _ _ _ _
    · split
      · exact ih _ _ _ _ _ _
      · exact ih _ _ _ _ _ _

/-- The readings one scripted attempt delivers when it is run in isolation:
nothing if the connection or the status check fails, otherwise the chunk
loop's invocations starting from an empty decode buffer. -/
def attemptInvocations (cb : TemperatureReading → Bool) (a : Attempt) :
    List TemperatureReading :=
  if a.connectFail then []
  else if a.statusOk then (runChunks none cb a.chunks 0 [] [] 0).invocations
  else []

/-- Factorisation of a full supervisor run into independent per-attempt runs,
for any starting check counter. -/
theorem supervisorRun_none_invocations (cb : TemperatureReading → Bool)
    (script : List Attempt) :
    ∀ k : Nat, (supervisorRun cb none script k).summaries.map (fun s => s.invocations) =
      script.map (attemptInvocations cb) := by
  induction script with
  | nil => intro k; rfl
  | cons a rest ih =>
    intro k
    simp only [supervisorRun, isSet, Bool.false_eq_true, if_false]
    by_cases h2 : a.connectFail
    · rw [if_pos h2]
      simp only [List.map_cons, ih]
      unfold attemptInvocations
      rw [if_pos h2]
    · rw [if_neg h2]
      by_cases h3 : a.statusOk
      · rw [if_pos h3]
        have hsf := runChunks_none_not_stopped cb a.chunks (k + 1) [] [] 0
        rw [if_neg (by simp [hsf])]
        have hinv : (runChunks none cb a.chunks (k + 1) [] [] 0).invocations =
            attemptInvocations cb a := by
          unfold attemptInvocations
          rw [if_neg h2, if_pos h3]
          exact runChunks_none_inv_shift cb a.chunks (k + 1) 0 [] [] 0 0
        by_cases h4 : a.transportFail
        · rw [if_pos h4]
          simp only [List.map_cons, ih, hinv]
        · rw [if_neg h4]
          simp only [List.map_cons, ih, hinv]
      · rw [if_neg h3]
        simp only [List.map_cons, ih]
        unfold attemptInvocations
        rw [if_neg h2, if_neg h3]

/-- C5: no frame ever spans two physical connections.  For every attempt
script, the sequence of per-attempt delivery traces of a `stream_forever` run
equals the attempt-by-attempt traces computed independently, each from an
EMPTY decode buffer (`buffer = ""` is re-initialised inside every `with`
block): whatever unterminated data was left in a dropped connection's buffer
is discarded and never concatenated into the next connection's buffer. -/
theorem claim5_fresh_buffer_per_attempt (cb : TemperatureReading → Bool)
    (script : List Attempt) :
    (supervisorRun cb none script 0).summaries.map (fun s => s.invocations) =
      script.map (attemptInvocations cb) :=
  supervisorRun_none_invocations cb script 0

/-! ## Claim C6 — bounded, prompt reaction to the stop event -/

/-- Bounds on the chunk loop when the stop event fires after `m` checks:
every processed chunk consumed a pre-`m` check (so at most `max k m - k`
chunks are processed from counter `k`), the counter never passes `max k m + 1`
(`max k m` if the loop was not broken by the stop check), and each processed
chunk advanced the counter. -/
theorem runChunks_some_bounds (cb : TemperatureReading → Bool) (m : Nat) :
    ∀ (cs : List (List Char)) (k : Nat) (buf : List Char)
      (out : List TemperatureReading) (pr : Nat),
      (runChunks (some m) cb cs k buf out pr).processed + k ≤ pr + max k m ∧
      (runChunks (some m) cb cs k buf out pr).checks ≤ max k m + 1 ∧
      ((runChunks (some m) cb cs k buf out pr).stoppedFlag = false →
        (runChunks (some m) cb cs k buf out pr).checks ≤ max k m) ∧
      k + (runChunks (some m) cb cs k buf out pr).processed ≤
        pr + (runChunks (some m) cb cs k buf out pr).checks := by
  intro cs
  induction cs with
  | nil =>
    intro k buf out pr
    simp only [runChunks]
    exact ⟨by omega, by omega, fun _ => by omega, by omega⟩
  | cons c cs ih =>
    intro k buf out pr
    simp only [runChunks]
    by_cases hk : isSet (some m) k = true
    · have hm : m ≤ k := by simpa [isSet] using hk
      rw [if_pos hk]
      exact ⟨by dsimp only; omega, by dsimp only; omega,
        fun h => by simp at h, by dsimp only; omega⟩
    · have hm : k < m := by simpa [isSet] using hk
      rw [if_neg hk]
      split
      · have h := ih (k + 1) buf out (pr + 1)
        exact ⟨by have := h.1; omega, by have := h.2.1; omega,
          fun hs => by have := h.2.2.1 hs; omega,
          by have := h.2.2.2; omega⟩
      · split
        · have h := ih (k + 1) [] (processLines cb
            (keptLines (buf ++ c)) (0, out)).2 (pr + 1)
          exact ⟨by have := h.1; omega, by have := h.2.1; omega,
            fun hs => by have := h.2.2.1 hs; omega,
            by have := h.2.2.2; omega⟩
        · have h := ih (k + 1) (buf ++ c) out (pr + 1)
          exact ⟨by have := h.1; omega, by have := h.2.1; omega,
            fun hs => by have := h.2.2.1 hs; omega,
            by have := h.2.2.2; omega⟩

/-- Bounds on the whole supervisor run when the stop event fires after `m`
checks: the run performs at most `max (k+1) (m+2)` checks in total and
processes chunks only behind pre-`m` checks. -/
theorem supervisorRun_some_bounds (cb : TemperatureReading → Bool) (m : Nat)
    (script : List Attempt) :
    ∀ k : Nat,
      (supervisorRun cb (some m) script k).checks ≤ max (k + 1) (m + 2) ∧
      ((supervisorRun cb (some m) script k).summaries.map
        (fun s => s.processed)).sum + min k m ≤ m := by
  induction script with
  | nil =>
    intro k
    simp only [supervisorRun]
    by_cases hk : isSet (some m) k = true
    · rw [if_pos hk]
      exact ⟨by dsimp only; omega, by dsimp only; simp only [List.map_nil, List.sum_nil]; omega⟩
    · rw [if_neg hk]
      exact ⟨by dsimp only; omega, by dsimp only; simp only [List.map_nil, List.sum_nil]; omega⟩
  | cons a rest ih =>
    intro k
    simp only [supervisorRun]
    by_cases hk : isSet (some m) k = true
    · rw [if_pos hk]
      exact ⟨by dsimp only; omega, by dsimp only; simp only [List.map_nil, List.sum_nil]; omega⟩
    · have hm : k < m := by simpa [isSet] using hk
      rw [if_neg hk]
      by_cases h2 : a.connectFail
      · rw [if_pos h2]
        by_cases hk1 : isSet (some m) (k + 1) = true
        · have hm1 : m ≤ k + 1 := by simpa [isSet] using hk1
          rw [if_pos hk1]
          refine ⟨by dsimp only; omega, ?_⟩
          try dsimp only
          simp only [List.map_cons, List.sum_cons, List.map_nil, List.sum_nil]
          try dsimp only
          omega
        · have hm1 : k + 1 < m := by simpa [isSet] using hk1
          rw [if_neg hk1]
          have h := ih (k + 2)
          refine ⟨by dsimp only; omega, ?_⟩
          try dsimp only
          simp only [List.map_cons, List.sum_cons]
          try dsimp only
          omega
      · rw [if_neg h2]
        by_cases h3 : a.statusOk
        · rw [if_pos h3]
          obtain ⟨b1, b2, b3, b4⟩ := runChunks_some_bounds cb m a.chunks (k + 1) [] [] 0
          by_cases h5 : (runChunks (some m) cb a.chunks (k + 1) [] [] 0).stoppedFlag = true
          · rw [if_pos h5]
            have h := ih (runChunks (some m) cb a.chunks (k + 1) [] [] 0).checks
            refine ⟨by dsimp only; omega, ?_⟩
            try dsimp only
            simp only [List.map_cons, List.sum_cons]
            try dsimp only
            omega
          · rw [if_neg h5]
            have hc3 := b3 (by simpa using h5)
            by_cases h4 : a.transportFail
            · rw [if_pos h4]
              by_cases h6 : isSet (some m)
                  (runChunks (some m) cb a.chunks (k + 1) [] [] 0).checks = true
              · have hm6 : m ≤ (runChunks (some m) cb a.chunks (k + 1) [] [] 0).checks := by
                  simpa [isSet] using h6
                rw [if_pos h6]
                refine ⟨by dsimp only; omega, ?_⟩
                try dsimp only
                simp only [List.map_cons, List.sum_cons, List.map_nil, List.sum_nil]
                try dsimp only
                omega
              · have hm6 : (runChunks (some m) cb a.chunks (k + 1) [] [] 0).checks < m := by
                  simpa [isSet] using h6
                rw [if_neg h6]
                have h := ih ((runChunks (some m) cb a.chunks (k + 1) [] [] 0).checks + 1)
                refine ⟨by dsimp only; omega, ?_⟩
                try dsimp only
                simp only [List.map_cons, List.sum_cons]
                try dsimp only
                omega
            · rw [if_neg h4]
              have h := ih (runChunks (some m) cb a.chunks (k + 1) [] [] 0).checks
              refine ⟨by dsimp only; omega, ?_⟩
              try dsimp only
              simp only [List.map_cons, List.sum_cons]
              try dsimp only
              omega
        · rw [if_neg h3]
          by_cases hk1 : isSet (some m) (k + 1) = true
          · have hm1 : m ≤ k + 1 := by simpa [isSet] using hk1
            rw [if_pos hk1]
            refine ⟨by dsimp only; omega, ?_⟩
            try dsimp only
            simp only [List.map_cons, List.sum_cons, List.map_nil, List.sum_nil]
            try dsimp only
            omega
          · have hm1 : k + 1 < m := by simpa [isSet] using hk1
            rw [if_neg hk1]
            have h := ih (k + 2)
            refine ⟨by dsimp only; omega, ?_⟩
            try dsimp only
            simp only [List.map_cons, List.sum_cons]
            try dsimp only
            omega

/-- C6: with the stop event set after `m` checks, a `stream_forever` run
(from check counter 0) processes at most `m` received chunks — every chunk is
processed only after its own stop check returned "not set", so no chunk is
ever processed once the signal is up — and the whole run performs at most
`m + 2` stop checks before returning control: bounded termination even on
connections that never produce a frame terminator. -/
theorem claim6_prompt_stop (cb : TemperatureReading → Bool)
    (script : List Attempt) (m : Nat) :
    (supervisorRun cb (some m) script 0).checks ≤ m + 2 ∧
    ((supervisorRun cb (some m) script 0).summaries.map
      (fun s => s.processed)).sum ≤ m := by
  obtain ⟨h1, h2⟩ := supervisorRun_some_bounds cb m script 0
  exact ⟨by omega, by omega⟩

/-! ## Claim C2 — segmentation independence of the Frame Decoder

A well-formed stream is a concatenation of events `"data:" ++ p ++ "\n\n"`
whose payloads contain no line-boundary characters.  We show the decoding
loop yields exactly the stripped payloads, in order, for every way of
cutting the stream into chunks. -/

/-- One well-formed SSE event carrying a single payload line. -/
def mkEvent (p : List Char) : List Char := dataMarker ++ p ++ ['\n', '\n']

/-- A payload free of Python line-boundary characters. -/
@[reducible] def NoLB (p : List Char) : Prop := ∀ c ∈ p, isLineBreak c = false

/-- A nonempty list ending in `'\n'` still ends in `'\n'` after removing its
head. -/
theorem reverse_tail_nl {c : Char} {l t : List Char} (hne : l ≠ [])
    (h : (c :: l).reverse = '\n' :: t) : ∃ t', l.reverse = '\n' :: t' := by
  rcases hl : l.reverse with _ | ⟨x, xs⟩
  · exact absurd (List.reverse_eq_nil_iff.mp hl) hne
  · rw [List.reverse_cons, hl] at h
    injection h with h1 _
    subst h1
    exact ⟨xs, rfl⟩

/-- Splitting a list that starts with a bare `'\n'` boundary. -/
theorem splitGo_nl_cons (cs acc : List Char) :
    splitGo ('\n' :: cs) acc = acc.reverse :: splitGo cs [] := by
  cases cs with
  | nil => simp [splitGo, isLineBreak, lineBreakChars]
  | cons c2 cs =>
    show splitGo ('\n' :: c2 :: cs) acc = _
    simp only [splitGo]
    rw [if_neg (by decide), if_pos (by decide)]

/-- A non-boundary head character is accumulated into the current line. -/
theorem splitGo_keep_cons (c : Char) (cs acc : List Char)
    (h : isLineBreak c = false) :
    splitGo (c :: cs) acc = splitGo cs (c :: acc) := by
  have hc : ¬(c = '\r') := by
    intro e
    rw [e] at h
    exact absurd h (by decide)
  cases cs with
  | nil =>
    simp only [splitGo]
    rw [if_neg (by simp [h]), if_neg (by simp)]
  | cons c2 cs =>
    simp only [splitGo]
    rw [if_neg hc, if_neg (by simp [h])]

/-- `splitlines` distributes over concatenation at a point where the left
part ends with a `'\n'` (the boundary is complete, so no `"\r\n"` merge can
span the cut). -/
theorem splitGo_append (n : Nat) : ∀ (a : List Char), a.length ≤ n →
    (∃ t, a.reverse = '\n' :: t) → ∀ (b acc : List Char),
    splitGo (a ++ b) acc = splitGo a acc ++ splitGo b [] := by
  induction n with
  | zero =>
    intro a hlen hnl b acc
    obtain ⟨t, ht⟩ := hnl
    rw [List.length_eq_zero.mp (Nat.le_zero.mp hlen)] at ht
    simp at ht
  | succ n ih =>
    intro a hlen hnl b acc
    match a with
    | [] =>
      obtain ⟨t, ht⟩ := hnl
      simp at ht
    | [c1] =>
      obtain ⟨t, ht⟩ := hnl
      simp only [List.reverse_cons, List.reverse_nil, List.nil_append] at ht
      injection ht with h1 _
      subst h1
      rw [show ['\n'] ++ b = '\n' :: b from rfl, splitGo_nl_cons b acc]
      simp [splitGo, isLineBreak, lineBreakChars]
    | c1 :: c2 :: a2 =>
      obtain ⟨t, ht⟩ := hnl
      have hlast : ∃ t', (c2 :: a2).reverse = '\n' :: t' :=
        reverse_tail_nl (by simp) ht
      have hlen2 : (c2 :: a2).length ≤ n := by
        simp only [List.length_cons] at hlen ⊢
        omega
      by_cases hr : c1 = '\r'
      · subst hr
        by_cases hn : c2 = '\n'
        · subst hn
          show splitGo ('\r' :: '\n' :: (a2 ++ b)) acc = _
          simp only [splitGo, if_true, List.cons_append]
          congr 1
          cases a2 with
          | nil => simp [splitGo]
          | cons x xs =>
            have ha2 : ∃ t'', (x :: xs).reverse = '\n' :: t'' := by
              obtain ⟨t', ht'⟩ := hlast
              exact reverse_tail_nl (by simp) ht'
            have hlen3 : (x :: xs).length ≤ n := by
              simp only [List.length_cons] at hlen ⊢
              omega
            exact ih (x :: xs) hlen3 ha2 b []
        · show splitGo ('\r' :: c2 :: (a2 ++ b)) acc = _
          simp only [splitGo, if_true, if_neg hn, List.cons_append]
          congr 1
          rw [← List.cons_append]
          exact ih (c2 :: a2) hlen2 hlast b []
      · by_cases hl : isLineBreak c1 = true
        · show splitGo (c1 :: c2 :: (a2 ++ b)) acc = _
          simp only [splitGo, if_neg hr, if_pos hl, List.cons_append]
          congr 1
          rw [← List.cons_append]
          exact ih (c2 :: a2) hlen2 hlast b []
        · show splitGo (c1 :: c2 :: (a2 ++ b)) acc = _
          simp only [splitGo, if_neg hr, if_neg hl]
          rw [← List.cons_append]
          exact ih (c2 :: a2) hlen2 hlast b (c1 :: acc)

/-- `pySplitlines` distributes over a cut after a complete `'\n'` boundary. -/
theorem pySplitlines_append (a b : List Char) (h : ∃ t, a.reverse = '\n' :: t) :
    pySplitlines (a ++ b) = pySplitlines a ++ pySplitlines b :=
  splitGo_append a.length a le_rfl h b []

/-- `dataLines` distributes over a cut after a complete `'\n'` boundary. -/
theorem dataLines_append (a b : List Char) (h : ∃ t, a.reverse = '\n' :: t) :
    dataLines (a ++ b) = dataLines a ++ dataLines b := by
  unfold dataLines keptLines
  rw [pySplitlines_append a b h, List.filter_append, List.filterMap_append]

/-- Splitting a boundary-free line followed by a `'\n'` terminator. -/
theorem splitGo_line : ∀ (line : List Char), NoLB line →
    ∀ (acc rest : List Char), splitGo (line ++ '\n' :: rest) acc =
      (acc.reverse ++ line) :: splitGo rest [] := by
  intro line
  induction line with
  | nil =>
    intro _ acc rest
    simpa using splitGo_nl_cons rest acc
  | cons c line ih =>
    intro hline acc rest
    have hc : isLineBreak c = false := hline c (by simp)
    have hline2 : NoLB line := fun x hx => hline x (by simp [hx])
    rw [show (c :: line) ++ '\n' :: rest = c :: (line ++ '\n' :: rest) from rfl,
      splitGo_keep_cons c _ acc hc, ih hline2 (c :: acc) rest]
    simp [List.reverse_cons, List.append_assoc]

/-- Stripping a list whose head is not whitespace gives a nonempty result. -/
theorem pyStrip_cons_not_space (c : Char) (l : List Char)
    (h : pyIsSpace c = false) : (pyStrip (c :: l)).isEmpty = false := by
  unfold pyStrip
  rw [List.dropWhile_cons, if_neg (by simp [h])]
  rcases he : ((c :: l).reverse.dropWhile pyIsSpace).reverse with _ | ⟨x, xs⟩
  · exfalso
    have h2 : (c :: l).reverse.dropWhile pyIsSpace = [] :=
      List.reverse_eq_nil_iff.mp he
    have h3 := List.dropWhile_eq_nil_iff.mp h2 c (by simp)
    rw [h3] at h
    cases h
  · rfl

/-- The payloads of a single well-formed event: exactly the stripped payload. -/
theorem dataLines_event (p : List Char) (hp : NoLB p) :
    dataLines (mkEvent p) = [pyStrip p] := by
  have hdm : ∀ x ∈ dataMarker, isLineBreak x = false := by decide
  have hdp : NoLB (dataMarker ++ p) := by
    intro x hx
    rcases List.mem_append.mp hx with h | h
    · exact hdm x h
    · exact hp x h
  have h1 : pySplitlines (mkEvent p) = [dataMarker ++ p, []] := by
    unfold mkEvent pySplitlines
    rw [show dataMarker ++ p ++ ['\n', '\n'] =
      (dataMarker ++ p) ++ '\n' :: ['\n'] by simp [List.append_assoc],
      splitGo_line (dataMarker ++ p) hdp [] ['\n']]
    simp [splitGo, isLineBreak, lineBreakChars]
  unfold dataLines keptLines
  rw [h1]
  have hkeep : (pyStrip (dataMarker ++ p)).isEmpty = false := by
    rw [show dataMarker ++ p = 'd' :: (['a', 't', 'a', ':'] ++ p) from rfl]
    exact pyStrip_cons_not_space 'd' _ (by decide)
  have hpre : dataMarker.isPrefixOf (dataMarker ++ p) = true := by
    rw [show dataMarker ++ p = 'd' :: 'a' :: 't' :: 'a' :: ':' :: p from rfl]
    simp [dataMarker, List.isPrefixOf]
  have hdrop : (dataMarker ++ p).drop 5 = p := by
    rw [show dataMarker ++ p = 'd' :: 'a' :: 't' :: 'a' :: ':' :: p from rfl]
    simp [List.drop_succ_cons]
  have hfil : List.filter (fun ln => !(pyStrip ln).isEmpty)
      [dataMarker ++ p, []] = [dataMarker ++ p] := by
    simp only [List.filter_cons, List.filter_nil, hkeep, Bool.not_false, if_true]
    rfl
  rw [hfil]
  simp only [List.filterMap_cons, List.filterMap_nil, hpre, if_true, hdrop]

/-- The payloads of a whole well-formed stream, in order. -/
theorem dataLines_events : ∀ (ps : List (List Char)), (∀ p ∈ ps, NoLB p) →
    dataLines (ps.map mkEvent).flatten = ps.map pyStrip := by
  intro ps
  induction ps with
  | nil => intro _; rfl
  | cons p ps ih =>
    intro h
    rw [List.map_cons, List.flatten_cons]
    have hev : ∃ t, (mkEvent p).reverse = '\n' :: t := by
      refine ⟨'\n' :: (p.reverse ++ dataMarker.reverse), ?_⟩
      simp [mkEvent, List.reverse_append]
    rw [dataLines_append _ _ hev, dataLines_event p (h p (by simp)),
      ih (fun q hq => h q (by simp [hq])), List.map_cons]
    rfl

/-- `endswith("\n\n")` in terms of the reversed buffer. -/
theorem endsWithNLNL_iff (l : List Char) :
    endsWithNLNL l = true ↔ ∃ t, l.reverse = '\n' :: '\n' :: t := by
  unfold endsWithNLNL
  rw [decide_eq_true_eq]
  rcases hr : l.reverse with _ | ⟨a, _ | ⟨b, t⟩⟩
  · simp
  · constructor
    · intro h
      simp at h
    · rintro ⟨t, ht⟩
      simp at ht
  · constructor
    · intro h
      simp only [List.take_succ_cons, List.take_zero] at h
      injection h with h1 h'
      injection h' with h2 _
      exact ⟨t, by rw [h1, h2]⟩
    · rintro ⟨t', ht⟩
      injection ht with h1 h'
      injection h' with h2 _
      simp [List.take_succ_cons, h1, h2]

/-- A list ending in a blank line in particular ends in `'\n'`. -/
theorem endsWithNLNL_to_nl (l : List Char) (h : endsWithNLNL l = true) :
    ∃ t, l.reverse = '\n' :: t := by
  obtain ⟨t, ht⟩ := (endsWithNLNL_iff l).mp h
  exact ⟨'\n' :: t, ht⟩

/-- Appending on the left preserves `endswith("\n\n")`. -/
theorem endsWithNLNL_append_left (a b : List Char)
    (h : endsWithNLNL b = true) : endsWithNLNL (a ++ b) = true := by
  obtain ⟨t, ht⟩ := (endsWithNLNL_iff b).mp h
  exact (endsWithNLNL_iff (a ++ b)).mpr
    ⟨t ++ a.reverse, by rw [List.reverse_append, ht]; rfl⟩

/-- Merging the already-flushed part with a newly flushed buffer. -/
theorem dataLines_merge (F b : List Char) (out : List (List Char))
    (hF : F = [] ∨ endsWithNLNL F = true) (hout : out = dataLines F) :
    out ++ dataLines b = dataLines (F ++ b) := by
  rcases hF with h | h
  · subst h
    simp [hout]
    rfl
  · rw [hout, dataLines_append F b (endsWithNLNL_to_nl F h)]

/-- Invariant of the frame-decoding fold: at every point the chunks consumed
so far split into a flushed part `F'` (empty or ending in a blank line),
whose payloads are exactly what has been emitted, and the current buffer,
which never ends in a blank line. -/
theorem decode_fold : ∀ (cs : List (List Char)) (F buf : List Char)
    (out : List (List Char)),
    (F = [] ∨ endsWithNLNL F = true) → endsWithNLNL buf = false →
    out = dataLines F →
    ∃ F', (cs.foldl decodeStep ⟨buf, out⟩).payloads = dataLines F' ∧
      F' ++ (cs.foldl decodeStep ⟨buf, out⟩).buffer = (F ++ buf) ++ cs.flatten ∧
      (F' = [] ∨ endsWithNLNL F' = true) ∧
      endsWithNLNL (cs.foldl decodeStep ⟨buf, out⟩).buffer = false := by
  intro cs
  induction cs with
  | nil =>
    intro F buf out hF hbuf hout
    refine ⟨F, ?_, ?_, hF, ?_⟩ <;> simp [hout, hbuf]
  | cons c cs ih =>
    intro F buf out hF hbuf hout
    rw [List.foldl_cons]
    by_cases hc : c.isEmpty = true
    · rw [show decodeStep ⟨buf, out⟩ c = ⟨buf, out⟩ by
        unfold decodeStep; rw [if_pos hc]]
      obtain ⟨F', h1, h2, h3, h4⟩ := ih F buf out hF hbuf hout
      refine ⟨F', h1, ?_, h3, h4⟩
      rw [h2, List.isEmpty_iff.mp hc]
      simp
    · by_cases hfl : endsWithNLNL (buf ++ c) = true
      · rw [show decodeStep ⟨buf, out⟩ c = ⟨[], out ++ dataLines (buf ++ c)⟩ by
          unfold decodeStep; rw [if_neg hc]; dsimp only; rw [if_pos hfl]]
        obtain ⟨F', h1, h2, h3, h4⟩ :=
          ih (F ++ (buf ++ c)) [] (out ++ dataLines (buf ++ c))
            (Or.inr (endsWithNLNL_append_left F _ hfl)) rfl
            (dataLines_merge F (buf ++ c) out hF hout)
        refine ⟨F', h1, ?_, h3, h4⟩
        rw [h2]
        simp [List.append_assoc]
      · rw [show decodeStep ⟨buf, out⟩ c = ⟨buf ++ c, out⟩ by
          unfold decodeStep; rw [if_neg hc]; dsimp only;
          rw [if_neg hfl]]
        obtain ⟨F', h1, h2, h3, h4⟩ :=
          ih F (buf ++ c) out hF (by simpa using hfl) hout
        refine ⟨F', h1, ?_, h3, h4⟩
        rw [h2]
        simp [List.append_assoc]

/-- A well-formed stream that splits into a flushed part and a residual
buffer with no trailing blank line forces the residual to be empty: the
stream ends `c '\n' '\n'` with `c ≠ '\n'`, so any nonempty residual would
itself end in the blank line. -/
theorem wellformed_residual (ps : List (List Char)) (hps : ∀ p ∈ ps, NoLB p)
    (F buf : List Char) (hF : F = [] ∨ endsWithNLNL F = true)
    (hbuf : endsWithNLNL buf = false)
    (heq : F ++ buf = (ps.map mkEvent).flatten) :
    buf = [] ∧ F = (ps.map mkEvent).flatten := by
  rcases List.eq_nil_or_concat ps with hnil | ⟨qs, p, hqp⟩
  · subst hnil
    obtain ⟨hF0, hbuf0⟩ := List.append_eq_nil.mp (by simpa using heq)
    exact ⟨hbuf0, by simp [hF0]⟩
  · subst hqp
    have hSrev : ∃ c0 t0, ((qs.concat p).map mkEvent).flatten.reverse =
        '\n' :: '\n' :: c0 :: t0 ∧ c0 ≠ '\n' := by
      rw [List.concat_eq_append, List.map_append, List.flatten_append,
        show ([p].map mkEvent).flatten = mkEvent p by simp,
        List.reverse_append,
        show (mkEvent p).reverse =
          '\n' :: '\n' :: (p.reverse ++ dataMarker.reverse) by
            simp [mkEvent, List.reverse_append]]
      rcases hp : p.reverse with _ | ⟨x, xs⟩
      · exact ⟨':', ['a', 't', 'a', 'd'] ++ ((qs.map mkEvent).flatten).reverse,
          by simp [dataMarker], by decide⟩
      · have hx : x ≠ '\n' := by
          have hmem : x ∈ p := List.mem_reverse.mp (by rw [hp]; simp)
          have hnb := hps p (by simp [List.concat_eq_append]) x hmem
          intro e
          rw [e] at hnb
          exact absurd hnb (by decide)
        exact ⟨x, (xs ++ dataMarker.reverse) ++ ((qs.map mkEvent).flatten).reverse,
          by simp [List.append_assoc], hx⟩
    obtain ⟨c0, t0, hS, hc0⟩ := hSrev
    have hrevEq : buf.reverse ++ F.reverse = '\n' :: '\n' :: c0 :: t0 := by
      rw [← List.reverse_append, heq, hS]
    rcases hb : buf.reverse with _ | ⟨b1, _ | ⟨b2, bt⟩⟩
    · have hbe : buf = [] := List.reverse_eq_nil_iff.mp hb
      subst hbe
      exact ⟨rfl, by simpa using heq⟩
    · rw [hb] at hrevEq
      simp only [List.cons_append, List.nil_append] at hrevEq
      injection hrevEq with h1 h2
      have hFne : F ≠ [] := by
        intro e
        rw [e] at h2
        simp at h2
      rcases hF with he | hF2
      · exact absurd he hFne
      · obtain ⟨t, ht⟩ := (endsWithNLNL_iff F).mp hF2
        rw [ht] at h2
        injection h2 with _ h4
        injection h4 with h5 _
        exact absurd h5.symm hc0
    · rw [hb] at hrevEq
      simp only [List.cons_append] at hrevEq
      injection hrevEq with h1 h'
      injection h' with h2 _
      have hbtrue : endsWithNLNL buf = true :=
        (endsWithNLNL_iff buf).mpr ⟨bt, by rw [hb, h1, h2]⟩
      rw [hbtrue] at hbuf
      exact Bool.noConfusion hbuf

/-- C2: segmentation independence of the Frame Decoder.  For every
well-formed stream — a concatenation of blank-line-terminated events
`data:<payload>` whose payloads contain no line boundaries — and EVERY way of
cutting that stream into chunks (one character at a time, the whole stream in
one piece, or any other segmentation, empty chunks included), the
frame-decoding loop emits exactly the stripped payloads, one per event, in
stream order. -/
theorem claim2_segmentation_independence (ps : List (List Char))
    (hps : ∀ p ∈ ps, NoLB p) (cs : List (List Char))
    (hcs : cs.flatten = (ps.map mkEvent).flatten) :
    decodeChunks cs = ps.map pyStrip := by
  unfold decodeChunks
  obtain ⟨F', h1, h2, h3, h4⟩ := decode_fold cs [] [] [] (Or.inl rfl) rfl rfl
  rw [hcs] at h2
  simp only [List.nil_append] at h2
  obtain ⟨hb, hFeq⟩ := wellformed_residual ps hps F' _ h3 h4 h2
  rw [h1, hFeq, dataLines_events ps hps]

/-- C2 witness payloads: two events, the first with a leading space that the
decoder strips. -/
def c2Payloads : List (List Char) := [[' ', 'x'], ['y']]

/-- C2 witness segmentation: the well-formed two-event stream cut into
one-character chunks. -/
def c2Chunks : List (List Char) :=
  ((c2Payloads.map mkEvent).flatten).map (fun c => [c])

/-- C2 witness: the one-character segmentation of the two-event stream
decodes to exactly the two stripped payloads. -/
theorem claim2_witness :
    (∀ p ∈ c2Payloads, NoLB p) ∧
    c2Chunks.flatten = (c2Payloads.map mkEvent).flatten ∧
    decodeChunks c2Chunks = c2Payloads.map pyStrip :=
  ⟨by decide, rfl,
   claim2_segmentation_independence c2Payloads (by decide) c2Chunks rfl⟩

end Monitor
